import Mathlib

/-!
Shallow embedding of the libsigrok VCD output module (src/output/vcd.c):
probe-name parsing, probe registry construction (init), packed-bit access
(get_bit), value-line rendering, and the per-frame delta encoder (receive),
together with proofs about their behaviour.

Bytes are modelled as naturals below 256; C reads that would go out of
bounds are modelled with a default of 0 and noted at each definition.
-/

namespace Vcd

/-- struct bit_index (vcd.c:39-42): `bit` is the logical position inside a
vector (0 = least significant), `sample` the bit offset used by get_bit to
read a packed sample. -/
structure BitIdx where
  bit : Nat
  sample : Nat
  deriving DecidableEq, Inhabited

/-- struct probe_context (vcd.c:44-49). `symbol` holds the ASCII code of the
probe's printable symbol character. -/
structure ProbeCtx where
  indices : List BitIdx
  symbol : Nat
  name : String
  is_vector : Bool
  deriving DecidableEq, Inhabited

/-- struct context (vcd.c:51-59). `header = true` models a still-pending
header GString (consumed by the first logic packet); `prevsample` is the
retained previous-sample buffer of length `unitsize`. -/
structure Ctx where
  probeindices : List ProbeCtx
  header : Bool
  prevsample : List Nat
  period : Nat
  samplerate : Nat
  unitsize : Nat
  samplecount : Nat
  deriving DecidableEq, Inhabited

/-- The scan loop of get_array_str (vcd.c:76-77):
while (end > 0 && isdigit(str[end])) end--. -/
def scan_digits (cs : List Char) : Nat → Nat
  | 0 => 0
  | e + 1 => if (cs.getD (e + 1) ' ').isDigit then scan_digits cs e else e + 1

/-- strtoul at base 10 (vcd.c:83): value of the leading run of decimal
digits; stops at the first non-digit (here the closing marker). -/
def strtoul10 : List Char → Nat → Nat
  | [], acc => acc
  | c :: rest, acc => if c.isDigit then strtoul10 rest (acc * 10 + (c.toNat - 48)) else acc

/-- get_array_str (vcd.c:61-91): recognize a vector-bit name
base<digits> anchored at the end; return the base and the parsed index,
or none for a scalar name. (For the empty string the C code indexes
str[-1]; names are nonempty in practice, modelled as no match.) -/
def get_array_str (s : String) : Option (String × Nat) :=
  let cs := s.data
  let n := cs.length
  if cs.getD (n - 1) ' ' ≠ '>' then none
  else
    let e := n - 2
    if e = 0 then none
    else if ¬ (cs.getD e ' ').isDigit then none
    else
      let e2 := scan_digits cs e
      if e2 = 0 then none
      else if cs.getD e2 ' ' ≠ '<' then none
      else some (⟨cs.take e2⟩, strtoul10 (cs.drop (e2 + 1)) 0)

/-- probe_find (vcd.c:93-103): position of the first vector probe whose base
name matches, if any. -/
def probe_find (indices : List ProbeCtx) (name : String) : Option Nat :=
  indices.findIdx? (fun pc => pc.is_vector && pc.name == name)

/-- g_array_append_val on the probe located by probe_find (vcd.c:162-163):
append a BitIdx to the j-th probe's index array. -/
def append_bidx : List ProbeCtx → Nat → BitIdx → List ProbeCtx
  | [], _, _ => []
  | pc :: rest, 0, b => { pc with indices := pc.indices ++ [b] } :: rest
  | pc :: rest, j + 1, b => pc :: append_bidx rest j b

/-- One iteration of init's probe loop for an enabled probe (vcd.c:133-165).
bidx.sample is set to ctx->probeindices->len before any grouping decision
(vcd.c:141); a new probe gets symbol '!' + len - 1 after the array has grown
(vcd.c:157), i.e. ASCII 33 + (previous length). -/
def init_probe_step (acc : List ProbeCtx) (name : String) : List ProbeCtx :=
  match get_array_str name with
  | some (base, bit) =>
    match probe_find acc base with
    | some j => append_bidx acc j ⟨bit, acc.length⟩
    | none => acc ++ [⟨[⟨bit, acc.length⟩], 33 + acc.length, base, true⟩]
  | none => acc ++ [⟨[⟨0, acc.length⟩], 33 + acc.length, name, false⟩]

/-- init's for loop over the probe list (vcd.c:133-165), as recursion on the
remaining (name, enabled) entries; disabled probes are skipped. -/
def init_fold : List ProbeCtx → List (String × Bool) → List ProbeCtx
  | acc, [] => acc
  | acc, p :: rest => init_fold (if p.2 then init_probe_step acc p.1 else acc) rest

/-- The probe registry built by init's loop from the device's probe list. -/
def init_probes (probes : List (String × Bool)) : List ProbeCtx :=
  init_fold [] probes

/-- sort_bits (vcd.c:105-110) orders BitIdx by bit descending. -/
def bit_ge (a b : BitIdx) : Bool := decide (b.bit ≤ a.bit)

/-- Insertion step for the descending sort of a probe's indices. -/
def insert_desc (b : BitIdx) : List BitIdx → List BitIdx
  | [] => [b]
  | x :: xs => if bit_ge b x then b :: x :: xs else x :: insert_desc b xs

/-- g_array_sort(probe_ctx->indices, sort_bits) (vcd.c:221): sort a probe's
indices from highest bit to lowest. -/
def sort_indices (l : List BitIdx) : List BitIdx := l.foldr insert_desc []

/-- Timescale selection (vcd.c:197-204): strict > thresholds at 1 MHz and
1 kHz; SR_GHZ(1) = 10^9, SR_MHZ(1) = 10^6, SR_KHZ(1) = 10^3. -/
def period_of (samplerate : Nat) : Nat :=
  if samplerate > 1000000 then 1000000000
  else if samplerate > 1000 then 1000000
  else 1000

/-- init (vcd.c:115-232). `samplerate?` is none when sr_config_get reports no
sample rate, in which case ctx->samplerate keeps the 0 from g_malloc0
(vcd.c:127,187-195). Returns none exactly when the probe count check fails
(vcd.c:167-170, SR_ERR); otherwise the initialized context with each probe's
indices sorted descending and a zeroed prevsample buffer (vcd.c:229). The
header text itself is not modelled; `header = true` records it is pending. -/
def init (probes : List (String × Bool)) (samplerate? : Option Nat) : Option Ctx :=
  if (init_probes probes).length > 94 then none
  else
    some { probeindices := (init_probes probes).map
             (fun pc => { pc with indices := sort_indices pc.indices }),
           header := true,
           prevsample := List.replicate (((init_probes probes).length + 7) / 8) 0,
           period := period_of (samplerate?.getD 0),
           samplerate := samplerate?.getD 0,
           unitsize := ((init_probes probes).length + 7) / 8,
           samplecount := 0 }

/-- get_bit (vcd.c:234-237): !!(bit_array[idx / 8] & (((uint8_t)1) << idx)).
The uint8_t operand promotes to int before the shift, so the mask is 2^idx
(not 2^(idx mod 8)); for 8 <= idx <= 30 the mask exceeds any byte value and
the result is 0, and for idx >= 31 the C shift is undefined. Out-of-range
byte reads are modelled as 0. -/
def get_bit (bit_array : List Nat) (idx : Nat) : Nat :=
  if bit_array.getD (idx / 8) 0 % 256 &&& 1 <<< idx ≠ 0 then 1 else 0

/-- Modelled from the spec: the BitAccessor extracts the logic bit at
absolute bit index idx from a packed byte buffer, i.e. bit (idx mod 8) of
byte (idx div 8). Comparison definition for claim C2 only. -/
def get_bit_spec (bit_array : List Nat) (idx : Nat) : Nat :=
  bit_array.getD (idx / 8) 0 / 2 ^ (idx % 8) % 2

/-- A run of 'x' filler characters. -/
def xrun (n : Nat) : String := ⟨List.replicate n 'x'⟩

/-- The gap fill loop (vcd.c:323-324): for (b = last_bit - 1; b > bit; b--)
append 'x'. The loop variable is a C int, hence the Int argument. -/
def gap_fill (last_bit : Int) (bit : Nat) : String :=
  xrun (last_bit - 1 - (bit : Int)).toNat

/-- The trailing fill loop (vcd.c:329-330): for (b = last_bit - 1; b >= 0;
b--) append 'x'. -/
def trail_fill (last_bit : Int) : String := xrun last_bit.toNat

/-- The value rendering loop (vcd.c:317-330). last_bit is initialized to 0
at vcd.c:317 and is never assigned again inside the loop, so it is threaded
through unchanged here, exactly as in the source. -/
def render_bits (sample : List Nat) : List BitIdx → Int → String
  | [], last_bit => trail_fill last_bit
  | bidx :: rest, last_bit =>
    gap_fill last_bit bidx.bit ++ toString (get_bit sample bidx.sample)
      ++ render_bits sample rest last_bit

/-- One probe's value line without the trailing newline (vcd.c:315-333):
'b' for vectors, the rendered bits, a space for vectors, then the symbol. -/
def render_value (sample : List Nat) (pc : ProbeCtx) : String :=
  (if pc.is_vector then "b" else "") ++ render_bits sample pc.indices 0
    ++ (if pc.is_vector then " " else "") ++ String.singleton (Char.ofNat pc.symbol)

/-- The change scan (vcd.c:302-310): true when the loop's break was taken,
i.e. some declared bit differs between the current and previous sample. -/
def probe_changed (sample prev : List Nat) (pc : ProbeCtx) : Bool :=
  pc.indices.any (fun b => get_bit sample b.sample != get_bit prev b.sample)

/-- One emitted output line. The header chunk is the single token `hdr`; a
timestamp line records the samplecount, samplerate and period that feed the
C expression at vcd.c:279-281 (see receive_timestamp). -/
inductive Line where
  | hdr : Line
  | timestamp (samplecount samplerate period : Nat) : Line
  | dumpvars : Line
  | dumpend : Line
  | value (s : String) : Line
  deriving DecidableEq

/-- The per-probe emission loop (vcd.c:290-334). A probe is skipped when
!first && s != probe_ctx->indices->len (vcd.c:311), i.e. when not first and
the change scan broke early. -/
def probe_lines (first : Bool) (sample prev : List Nat) (pcs : List ProbeCtx) : List Line :=
  pcs.filterMap (fun pc =>
    if !first && probe_changed sample prev pc then none
    else some (Line.value (render_value sample pc)))

/-- The body of the sample loop for one sample (vcd.c:270-339): increment
samplecount; if not first and the first unitsize bytes equal prevsample,
continue with no output (vcd.c:276-277); otherwise emit the timestamp line,
the dumpvars markers on the first sample, one line per non-skipped probe,
and copy unitsize bytes of the sample into prevsample (vcd.c:339).
Returns the updated context, the emitted lines, and the updated first flag. -/
def process_sample (first : Bool) (c : Ctx) (sample : List Nat) :
    Ctx × List Line × Bool :=
  if !first && sample.take c.unitsize == c.prevsample then
    ({ c with samplecount := c.samplecount + 1 }, [], first)
  else
    ({ c with samplecount := c.samplecount + 1, prevsample := sample.take c.unitsize },
      [Line.timestamp (c.samplecount + 1) c.samplerate c.period]
        ++ (if first then [Line.dumpvars] else [])
        ++ probe_lines first sample c.prevsample c.probeindices
        ++ (if first then [Line.dumpend] else []),
      false)

/-- Modelled from the spec (struct sr_datafeed_logic lives in libsigrok.h,
not under src/): the payload length is an unsigned 64-bit byte count and
unitsize an unsigned 16-bit stride, so the loop bound
logic->length - logic->unitsize of vcd.c:269 is computed modulo 2^64 and
wraps when length < unitsize. -/
def loop_bound (length u : Nat) : Nat := (length + 2 ^ 64 - u) % 2 ^ 64

/-- Iterations of for (i = 0; i <= bound; i += unitsize) (vcd.c:269), with
fuel bounding the recursion; fuel >= bound + 1 - i suffices whenever
unitsize > 0, so the wrapper below is exact there. A zero unitsize (an
endless loop in C) exhausts the fuel and yields 0. -/
def loop_iters_fuel : Nat → Nat → Nat → Nat → Nat
  | 0, _, _, _ => 0
  | fuel + 1, bound, u, i =>
    if i ≤ bound then loop_iters_fuel fuel bound u (i + u) + 1 else 0

/-- Number of loop iterations of vcd.c:269 starting at i. -/
def loop_iters (bound u i : Nat) : Nat :=
  loop_iters_fuel (bound + 1 - i) bound u i

/-- The number of samples the loop at vcd.c:269 processes for a frame of the
given byte length and unitsize. -/
def receive_num_samples (length u : Nat) : Nat :=
  loop_iters (loop_bound length u) u 0

/-- The sample pointers logic->data + i visited by the loop (vcd.c:269,274):
the k-th iteration reads at offset i = k * unitsize. A sample is modelled as
the byte suffix of the frame from its offset, since get_bit, memcmp and
memcpy all read forward from the sample pointer. -/
def frame_samples (data : List Nat) (u : Nat) : List (List Nat) :=
  (List.range (receive_num_samples data.length u)).map (fun k => data.drop (k * u))

/-- A datafeed packet: some (data, unitsize) for an SR_DF_LOGIC payload,
none for any other packet type. -/
abbrev Packet : Type := Option (List Nat × Nat)

/-- The sample loop (vcd.c:269-340): process the samples in order, threading
the context and the first flag, collecting each sample's lines as one group. -/
def run_samples : Bool → Ctx → List (List Nat) → Ctx × List (List Line) × Bool
  | first, c, [] => (c, [], first)
  | first, c, s :: rest =>
    let r := process_sample first c s
    let r2 := run_samples r.2.2 r.1 rest
    (r2.1, r.2.1 :: r2.2.1, r2.2.2)

/-- receive (vcd.c:239-343) at per-sample granularity: a non-logic packet
returns SR_OK with no output and the header untouched (vcd.c:256-257); a
logic packet sets first from the pending-header test (vcd.c:260), consumes
the header (vcd.c:262-264), and runs the sample loop. -/
def receive_groups (c : Ctx) (pkt : Packet) : Ctx × List (List Line) :=
  match pkt with
  | none => (c, [])
  | some (data, u) =>
    let r := run_samples c.header { c with header := false } (frame_samples data u)
    (r.1, r.2.1)

/-- receive's output chunk as a flat line list: the pending header text
(emitted as Line.hdr) followed by all sample lines of the call. -/
def receive (c : Ctx) (pkt : Packet) : Ctx × List Line :=
  ((receive_groups c pkt).1,
    (if c.header && pkt.isSome then [Line.hdr] else []) ++ (receive_groups c pkt).2.flatten)

/-- A whole session: fold receive over a packet sequence, concatenating the
per-sample groups of all calls in order. -/
def run_session : Ctx → List Packet → Ctx × List (List Line)
  | c, [] => (c, [])
  | c, p :: rest =>
    let r := receive_groups c p
    let r2 := run_session r.1 rest
    (r2.1, r.2 ++ r2.2)

/-- The timestamp value of vcd.c:279-281, computed there as
(uint64_t)(((float)ctx->samplecount / ctx->samplerate) * ctx->period).
The division is unguarded: with samplerate = 0 the float division yields
infinity and the conversion to uint64_t is undefined, modelled as none.
With samplerate > 0 the conversion is defined; the value carried in that
case is the exact floor(samplecount * period / samplerate) — the binary32
rounding of the C expression is outside this embedding's scope. -/
def receive_timestamp (samplecount samplerate period : Nat) : Option Nat :=
  if samplerate = 0 then none else some (samplecount * period / samplerate)

/-- A line group containing neither the dumpvars nor the end marker. -/
def marker_free (g : List Line) : Prop :=
  ∀ l ∈ g, l ≠ Line.dumpvars ∧ l ≠ Line.dumpend

/-- Shape of the first processed sample's group: a timestamp line, the
dumpvars marker, exactly one value line per registered probe, the end
marker. -/
def first_group_shape (nprobes : Nat) (g : List Line) : Prop :=
  ∃ a b p vals,
    g = Line.timestamp a b p :: Line.dumpvars :: (vals ++ [Line.dumpend]) ∧
      vals.length = nprobes ∧ ∀ l ∈ vals, ∃ str, l = Line.value str

/-- Session-level first-sample property: if any sample was processed, the
very first sample's group is the dumpvars block and no later sample's group
carries the markers. -/
def session_first_ok (nprobes : Nat) (gs : List (List Line)) : Prop :=
  gs = [] ∨ ∃ g0 rest, gs = g0 :: rest ∧ first_group_shape nprobes g0 ∧
    ∀ g ∈ rest, marker_free g

/-- A well-formed logic payload: positive stride, at least one whole sample,
and a length within the uint64 range of the length field. -/
def wf_packet : Packet → Prop
  | none => True
  | some (data, u) => 0 < u ∧ u ≤ data.length ∧ data.length < 2 ^ 64

/-- Closed form of the loop counter: with a positive stride and enough fuel,
the loop for (i = 0; i <= bound; i += u) runs (bound - i) / u + 1 times when
entered and 0 times otherwise. -/
theorem loop_iters_fuel_eq (u : Nat) (hu : 0 < u) :
    ∀ fuel bound i, bound + 1 ≤ fuel + i →
      loop_iters_fuel fuel bound u i = if i ≤ bound then (bound - i) / u + 1 else 0 := by
  intro fuel
  induction fuel with
  | zero =>
    intro bound i hf
    rw [if_neg (by omega)]
    rfl
  | succ fuel ih =>
    intro bound i hf
    show (if i ≤ bound then loop_iters_fuel fuel bound u (i + u) + 1 else 0) = _
    by_cases hib : i ≤ bound
    · rw [if_pos hib, if_pos hib, ih bound (i + u) (by omega)]
      by_cases h2 : i + u ≤ bound
      · rw [if_pos h2]
        have hle : u ≤ bound - i := by omega
        have hr : (bound - i) / u = (bound - i - u) / u + 1 := Nat.div_eq_sub_div hu hle
        have he : bound - i - u = bound - (i + u) := by omega
        rw [hr, he]
      · rw [if_neg h2]
        have h0 : (bound - i) / u = 0 := Nat.div_eq_of_lt (by omega)
        rw [h0]
    · rw [if_neg hib, if_neg hib]

/-- The wrapper always has enough fuel. -/
theorem loop_iters_eq (bound u i : Nat) (hu : 0 < u) :
    loop_iters bound u i = if i ≤ bound then (bound - i) / u + 1 else 0 :=
  loop_iters_fuel_eq u hu (bound + 1 - i) bound i (by omega)

/-- For a frame holding at least one whole sample, the loop at vcd.c:269
processes exactly floor(length / unitsize) samples, silently dropping any
trailing bytes shorter than one sample. -/
theorem receive_num_samples_eq (length u : Nat) (hu : 0 < u) (hl : u ≤ length)
    (hlen : length < 2 ^ 64) : receive_num_samples length u = length / u := by
  have hb : loop_bound length u = length - u := by
    unfold loop_bound
    omega
  unfold receive_num_samples
  rw [hb, loop_iters_eq _ _ _ hu, if_pos (Nat.zero_le _), Nat.sub_zero]
  exact (Nat.div_eq_sub_div hu hl).symm

/-- append_bidx never changes the number of probes. -/
theorem append_bidx_length (l : List ProbeCtx) : ∀ (j : Nat) (b : BitIdx),
    (append_bidx l j b).length = l.length := by
  induction l with
  | nil => intro j b; rfl
  | cons pc rest ih =>
    intro j b
    cases j with
    | zero => rfl
    | succ j => simp [append_bidx, ih]

/-- Each loop iteration of init adds at most one probe. -/
theorem init_probe_step_length (acc : List ProbeCtx) (name : String) :
    (init_probe_step acc name).length ≤ acc.length + 1 := by
  unfold init_probe_step
  split
  · split
    · rw [append_bidx_length]
      omega
    · simp
  · simp

/-- init's loop grows the registry by at most one probe per list entry. -/
theorem init_fold_length_le (l : List (String × Bool)) :
    ∀ acc : List ProbeCtx, (init_fold acc l).length ≤ acc.length + l.length := by
  induction l with
  | nil => intro acc; simp [init_fold]
  | cons p rest ih =>
    intro acc
    show (init_fold (if p.2 then init_probe_step acc p.1 else acc) rest).length ≤ _
    have h2 := ih (if p.2 then init_probe_step acc p.1 else acc)
    have h3 : (if p.2 then init_probe_step acc p.1 else acc).length ≤ acc.length + 1 := by
      split
      · exact init_probe_step_length acc p.1
      · omega
    simp only [List.length_cons]
    omega

/-- The number of logical probes never exceeds the raw probe-list length. -/
theorem init_probes_length_le (probes : List (String × Bool)) :
    (init_probes probes).length ≤ probes.length := by
  have h := init_fold_length_le probes []
  simpa [init_probes] using h

/-- Each emitted probe line is a value line. -/
theorem probe_lines_value (first : Bool) (s prev : List Nat) (pcs : List ProbeCtx) :
    ∀ l ∈ probe_lines first s prev pcs, ∃ str, l = Line.value str := by
  intro l hl
  unfold probe_lines at hl
  rw [List.mem_filterMap] at hl
  obtain ⟨pc, _, hpc⟩ := hl
  split at hpc
  · cases hpc
  · exact ⟨render_value s pc, (Option.some.inj hpc).symm⟩

/-- On the first sample the per-probe skip test is disabled, so every
registered probe emits exactly one value line, in registry order. -/
theorem probe_lines_true_eq (s prev : List Nat) (pcs : List ProbeCtx) :
    probe_lines true s prev pcs =
      pcs.map (fun pc => Line.value (render_value s pc)) := by
  induction pcs with
  | nil => rfl
  | cons pc rest ih =>
    show Line.value (render_value s pc) :: probe_lines true s prev rest = _
    rw [ih, List.map_cons]

/-- One value line per registered probe on the first sample. -/
theorem probe_lines_true_len (s prev : List Nat) (pcs : List ProbeCtx) :
    (probe_lines true s prev pcs).length = pcs.length := by
  rw [probe_lines_true_eq, List.length_map]

/-- Unfolding of process_sample on the first sample: the identical-sample
skip is disabled and the dumpvars markers bracket the probe lines. -/
theorem process_sample_true_eq (c : Ctx) (s : List Nat) :
    process_sample true c s =
      ({ c with samplecount := c.samplecount + 1, prevsample := s.take c.unitsize },
        Line.timestamp (c.samplecount + 1) c.samplerate c.period ::
          Line.dumpvars ::
            (probe_lines true s c.prevsample c.probeindices ++ [Line.dumpend]),
        false) := rfl

/-- The first flag is cleared after the first sample is emitted. -/
theorem process_sample_true_first (c : Ctx) (s : List Nat) :
    (process_sample true c s).2.2 = false := by
  rw [process_sample_true_eq]

/-- process_sample never touches the probe registry or the header flag. -/
theorem process_sample_pres (first : Bool) (c : Ctx) (s : List Nat) :
    (process_sample first c s).1.probeindices = c.probeindices ∧
    (process_sample first c s).1.header = c.header := by
  refine ⟨?_, ?_⟩ <;> (unfold process_sample; split <;> rfl)

/-- After the first sample, no sample's lines contain the dumpvars or end
markers, and the first flag stays false. -/
theorem process_sample_false (c : Ctx) (s : List Nat) :
    marker_free (process_sample false c s).2.1 ∧
    (process_sample false c s).2.2 = false := by
  unfold process_sample marker_free
  split
  · exact ⟨fun l hl => absurd hl (List.not_mem_nil l), rfl⟩
  · refine ⟨?_, rfl⟩
    intro l hl
    simp at hl
    rcases hl with h | h
    · subst h
      exact ⟨by simp, by simp⟩
    · obtain ⟨str, hstr⟩ := probe_lines_value false s c.prevsample c.probeindices l h
      subst hstr
      exact ⟨by simp, by simp⟩

/-- run_samples never touches the probe registry or the header flag. -/
theorem run_samples_pres (samples : List (List Nat)) :
    ∀ (first : Bool) (c : Ctx),
      (run_samples first c samples).1.probeindices = c.probeindices ∧
      (run_samples first c samples).1.header = c.header := by
  induction samples with
  | nil => intro first c; exact ⟨rfl, rfl⟩
  | cons s rest ih =>
    intro first c
    have h1 := process_sample_pres first c s
    have h2 := ih (process_sample first c s).2.2 (process_sample first c s).1
    constructor
    · show (run_samples (process_sample first c s).2.2
          (process_sample first c s).1 rest).1.probeindices = _
      rw [h2.1, h1.1]
    · show (run_samples (process_sample first c s).2.2
          (process_sample first c s).1 rest).1.header = _
      rw [h2.2, h1.2]

/-- With the first flag already cleared, every sample group of the loop is
free of the dumpvars markers and the flag stays cleared. -/
theorem run_samples_false (samples : List (List Nat)) :
    ∀ c : Ctx, (∀ g ∈ (run_samples false c samples).2.1, marker_free g) ∧
      (run_samples false c samples).2.2 = false := by
  induction samples with
  | nil =>
    intro c
    exact ⟨fun g hg => absurd hg (List.not_mem_nil g), rfl⟩
  | cons s rest ih =>
    intro c
    have hps := process_sample_false c s
    have hcons1 : (run_samples false c (s :: rest)).2.1 =
        (process_sample false c s).2.1 ::
          (run_samples false (process_sample false c s).1 rest).2.1 := by
      show (process_sample false c s).2.1 ::
          (run_samples (process_sample false c s).2.2
            (process_sample false c s).1 rest).2.1 = _
      rw [hps.2]
    have hcons2 : (run_samples false c (s :: rest)).2.2 =
        (run_samples false (process_sample false c s).1 rest).2.2 := by
      show (run_samples (process_sample false c s).2.2
          (process_sample false c s).1 rest).2.2 = _
      rw [hps.2]
    constructor
    · intro g hg
      rw [hcons1] at hg
      rcases List.mem_cons.mp hg with h | h
      · exact h ▸ hps.1
      · exact (ih (process_sample false c s).1).1 g h
    · rw [hcons2]
      exact (ih _).2

/-- Splitting the loop at the first sample when the first flag is set. -/
theorem run_samples_true_cons (c : Ctx) (s : List Nat) (rest : List (List Nat)) :
    (run_samples true c (s :: rest)).2.1 =
      (process_sample true c s).2.1 ::
        (run_samples false (process_sample true c s).1 rest).2.1 := by
  show (process_sample true c s).2.1 ::
      (run_samples (process_sample true c s).2.2
        (process_sample true c s).1 rest).2.1 = _
  rw [process_sample_true_first]

/-- With the first flag set and at least one sample, the loop's first group
is the dumpvars block with one value line per probe, and every later group
is marker free. -/
theorem run_samples_true_ok (c : Ctx) (s : List Nat) (rest : List (List Nat)) :
    ∃ g0 gs, (run_samples true c (s :: rest)).2.1 = g0 :: gs ∧
      first_group_shape c.probeindices.length g0 ∧ ∀ g ∈ gs, marker_free g := by
  refine ⟨(process_sample true c s).2.1,
    (run_samples false (process_sample true c s).1 rest).2.1,
    run_samples_true_cons c s rest, ?_, ?_⟩
  · refine ⟨c.samplecount + 1, c.samplerate, c.period,
      probe_lines true s c.prevsample c.probeindices, ?_,
      probe_lines_true_len s c.prevsample c.probeindices,
      probe_lines_value true s c.prevsample c.probeindices⟩
    rfl
  · exact fun g hg => (run_samples_false rest (process_sample true c s).1).1 g hg

/-- receive_groups on a non-logic packet. -/
theorem receive_groups_none_1 (c : Ctx) : (receive_groups c none).1 = c := rfl

/-- receive_groups on a non-logic packet yields no output. -/
theorem receive_groups_none_2 (c : Ctx) : (receive_groups c none).2 = [] := rfl

/-- Unfolding of receive_groups on a logic packet. -/
theorem receive_groups_some (c : Ctx) (data : List Nat) (u : Nat) :
    receive_groups c (some (data, u)) =
      ((run_samples c.header { c with header := false } (frame_samples data u)).1,
        (run_samples c.header { c with header := false } (frame_samples data u)).2.1) := rfl

/-- A frame holding at least one whole sample yields a nonempty sample list. -/
theorem frame_samples_ne_nil (data : List Nat) (u : Nat) (hu : 0 < u)
    (hl : u ≤ data.length) (hlen : data.length < 2 ^ 64) :
    ∃ s rest, frame_samples data u = s :: rest := by
  have hn : receive_num_samples data.length u = data.length / u :=
    receive_num_samples_eq data.length u hu hl hlen
  have hpos : 0 < data.length / u := Nat.div_pos hl hu
  have hne : frame_samples data u ≠ [] := by
    unfold frame_samples
    rw [hn]
    intro hcon
    have hlencon := congrArg List.length hcon
    simp at hlencon
    omega
  obtain ⟨s, rest, h⟩ := List.exists_cons_of_ne_nil hne
  exact ⟨s, rest, h⟩

/-- First logic call of a session: the header is consumed, the first group
is the dumpvars block, later groups of the call are marker free. -/
theorem receive_groups_first (c : Ctx) (data : List Nat) (u : Nat)
    (hh : c.header = true) (hu : 0 < u) (hl : u ≤ data.length)
    (hlen : data.length < 2 ^ 64) :
    (∃ g0 gs, (receive_groups c (some (data, u))).2 = g0 :: gs ∧
        first_group_shape c.probeindices.length g0 ∧ ∀ g ∈ gs, marker_free g) ∧
    (receive_groups c (some (data, u))).1.header = false ∧
    (receive_groups c (some (data, u))).1.probeindices = c.probeindices := by
  obtain ⟨s, rest, hsr⟩ := frame_samples_ne_nil data u hu hl hlen
  have hrw2 : (receive_groups c (some (data, u))).2 =
      (run_samples true { c with header := false } (s :: rest)).2.1 := by
    rw [receive_groups_some, hh, hsr]
  have hrw1 : (receive_groups c (some (data, u))).1 =
      (run_samples true { c with header := false } (s :: rest)).1 := by
    rw [receive_groups_some, hh, hsr]
  have hpi : ({ c with header := false } : Ctx).probeindices = c.probeindices := rfl
  refine ⟨?_, ?_, ?_⟩
  · obtain ⟨g0, gs, hg, hshape, hmf⟩ :=
      run_samples_true_ok { c with header := false } s rest
    rw [hpi] at hshape
    exact ⟨g0, gs, by rw [hrw2, hg], hshape, hmf⟩
  · rw [hrw1, (run_samples_pres (s :: rest) true _).2]
  · rw [hrw1, (run_samples_pres (s :: rest) true _).1, hpi]

/-- A logic call with the header already consumed only produces marker-free
groups and keeps the header consumed. -/
theorem receive_groups_nofirst (c : Ctx) (data : List Nat) (u : Nat)
    (hc : c.header = false) :
    (∀ g ∈ (receive_groups c (some (data, u))).2, marker_free g) ∧
    (receive_groups c (some (data, u))).1.header = false := by
  have h2 : (receive_groups c (some (data, u))).2 =
      (run_samples false { c with header := false } (frame_samples data u)).2.1 := by
    rw [receive_groups_some, hc]
  have h1 : (receive_groups c (some (data, u))).1 =
      (run_samples false { c with header := false } (frame_samples data u)).1 := by
    rw [receive_groups_some, hc]
  constructor
  · intro g hg
    rw [h2] at hg
    exact (run_samples_false (frame_samples data u) _).1 g hg
  · rw [h1, (run_samples_pres (frame_samples data u) false _).2]

/-- Unfolding of run_session on a packet. -/
theorem run_session_cons_1 (c : Ctx) (p : Packet) (rest : List Packet) :
    (run_session c (p :: rest)).1 = (run_session (receive_groups c p).1 rest).1 := rfl

/-- Unfolding of run_session's output on a packet. -/
theorem run_session_cons_2 (c : Ctx) (p : Packet) (rest : List Packet) :
    (run_session c (p :: rest)).2 =
      (receive_groups c p).2 ++ (run_session (receive_groups c p).1 rest).2 := rfl

/-- Once the header is consumed, the rest of the session only produces
marker-free groups. -/
theorem run_session_nofirst (pkts : List Packet) :
    ∀ c : Ctx, c.header = false →
      (∀ g ∈ (run_session c pkts).2, marker_free g) ∧
      (run_session c pkts).1.header = false := by
  induction pkts with
  | nil => intro c hc; exact ⟨fun g hg => absurd hg (List.not_mem_nil g), hc⟩
  | cons p rest ih =>
    intro c hc
    rcases p with _ | ⟨data, u⟩
    · constructor
      · intro g hg
        rw [run_session_cons_2, receive_groups_none_1, receive_groups_none_2,
          List.nil_append] at hg
        exact (ih c hc).1 g hg
      · rw [run_session_cons_1, receive_groups_none_1]
        exact (ih c hc).2
    · have hrg := receive_groups_nofirst c data u hc
      constructor
      · intro g hg
        rw [run_session_cons_2] at hg
        rcases List.mem_append.mp hg with h | h
        · exact hrg.1 g h
        · exact (ih _ hrg.2).1 g h
      · rw [run_session_cons_1]
        exact (ih _ hrg.2).2

/-- With a pending header and well-formed logic payloads, the session's
first processed sample — whichever call it falls in — produces the dumpvars
block, and no later sample produces the markers. -/
theorem run_session_first_ok (pkts : List Packet) :
    ∀ c : Ctx, c.header = true → (∀ p ∈ pkts, wf_packet p) →
      session_first_ok c.probeindices.length (run_session c pkts).2 := by
  induction pkts with
  | nil => intro c _ _; exact Or.inl rfl
  | cons p rest ih =>
    intro c hc hwf
    rcases p with _ | ⟨data, u⟩
    · have hrest := ih c hc (fun q hq => hwf q (List.mem_cons_of_mem _ hq))
      unfold session_first_ok at hrest ⊢
      rw [run_session_cons_2, receive_groups_none_1, receive_groups_none_2,
        List.nil_append]
      exact hrest
    · have hwfp : 0 < u ∧ u ≤ data.length ∧ data.length < 2 ^ 64 :=
        hwf _ (List.mem_cons_self _ _)
      obtain ⟨hu, hl, hlen⟩ := hwfp
      obtain ⟨⟨g0, gs, hg, hshape, hmf⟩, hhd, hpi⟩ :=
        receive_groups_first c data u hc hu hl hlen
      have hrest := run_session_nofirst rest _ hhd
      refine Or.inr ⟨g0,
        gs ++ (run_session (receive_groups c (some (data, u))).1 rest).2, ?_, hshape, ?_⟩
      · rw [run_session_cons_2, hg, List.cons_append]
      · intro g hgm
        rcases List.mem_append.mp hgm with h | h
        · exact hmf g h
        · exact hrest.1 g h

/-- C1: evaluation of the code at the claim's own concrete input. For a
vector probe declared only at bits 3 and 0 with sampled values 1 and 0, the
claim (and the source comments at vcd.c:322 and vcd.c:328) call for the
value line b1xx0 followed by a space and the symbol; since last_bit is
initialized to 0 at vcd.c:317 and never updated, neither fill loop ever
runs, and the emitted line is b10 followed by the symbol, with no x
characters for the missing bits 2 and 1. -/
theorem C1_gap_fill_eval :
    (receive ((init [("name<3>", true), ("name<0>", true)] none).getD default)
        (some ([1], 1))).2 =
      [Line.hdr, Line.timestamp 1 0 1000, Line.dumpvars, Line.value "b10 !",
        Line.dumpend] := by decide

/-- C2: evaluation of the code at a failing input. get_bit on the buffer
0x00 0x01 at absolute bit index 8 returns 0, because the mask 1 << 8 = 256
exceeds every byte value, while the claimed behaviour (bit idx mod 8 of
byte idx div 8) gives 1; get_bit is correct only for idx < 8. -/
theorem C2_get_bit_high_index :
    get_bit [0, 1] 8 = 0 ∧ get_bit_spec [0, 1] 8 = 1 := by decide

/-- C4: for a session started by init (header pending) fed any sequence of
packets whose logic payloads are well formed (positive stride, at least one
whole sample), the first sample ever processed — regardless of call
boundaries, with non-logic packets yielding zero samples and leaving the
header pending — produces the dumpvars marker before exactly one value line
per registered probe and the end marker after, and no later sample's group
contains either marker. -/
theorem C4_first_sample_dumpvars (probes : List (String × Bool)) (rate? : Option Nat)
    (c0 : Ctx) (pkts : List Packet)
    (hinit : init probes rate? = some c0) (hwf : ∀ p ∈ pkts, wf_packet p) :
    session_first_ok c0.probeindices.length (run_session c0 pkts).2 := by
  have hc : c0.header = true := by
    unfold init at hinit
    split at hinit
    · exact absurd hinit (by simp)
    · cases hinit
      rfl
  exact run_session_first_ok pkts c0 hc hwf

/-- Witness for C4 at a concrete session: one scalar probe, one non-logic
packet followed by a one-sample logic frame. -/
theorem C4_witness :
    session_first_ok 1
      (run_session ((init [("a", true)] none).getD default)
        [none, some ([1], 1)]).2 := by
  have h0 : init [("a", true)] none = some ((init [("a", true)] none).getD default) := by
    rfl
  have hw : ∀ p ∈ ([none, some ([1], 1)] : List Packet), wf_packet p := by
    intro p hp
    rcases List.mem_cons.mp hp with h | h
    · subst h; exact trivial
    · rw [List.mem_singleton] at h
      subst h
      exact ⟨Nat.one_pos, Nat.le_refl 1, by decide⟩
  have h := C4_first_sample_dumpvars [("a", true)] none
    ((init [("a", true)] none).getD default) [none, some ([1], 1)] h0 hw
  have hlen : ((init [("a", true)] none).getD default).probeindices.length = 1 := by
    rfl
  rw [hlen] at h
  exact h

/-- C5: evaluation of the code at the failing input. For a first frame of 1
byte with a 2-byte stride the claim calls for zero samples processed; the
loop bound logic->length - logic->unitsize underflows to 2^64 - 1 and the
loop at vcd.c:269 processes 2^63 samples, reading far beyond the 1-byte
buffer, instead of zero. -/
theorem C5_short_frame_underflow : receive_num_samples 1 2 = 2 ^ 63 := by
  unfold receive_num_samples
  rw [loop_iters_eq _ _ _ (by decide), if_pos (Nat.zero_le _), Nat.sub_zero]
  decide

/-- C6: evaluation of init's registry on the enabled probe list a<0>, a<1>,
b. The claim calls for each BitIndex.sample to be the entry's zero-based
index among the enabled probes in input order (a<0> -> 0, a<1> -> 1,
b -> 2); the code stores ctx->probeindices->len instead (vcd.c:141), so the
probe b gets sample = 1 — colliding with a<1>'s offset — rather than 2. -/
theorem C6_sample_offset_eval :
    init_probes [("a<0>", true), ("a<1>", true), ("b", true)] =
      [{ indices := [{ bit := 0, sample := 0 }, { bit := 1, sample := 1 }],
         symbol := 33, name := "a", is_vector := true },
       { indices := [{ bit := 0, sample := 1 }], symbol := 34, name := "b",
         is_vector := false }] := by decide

/-- C7 counterexample: a concrete probe list of 95 entries on which init
succeeds (one entry disabled, 94 enabled scalars), refuting the claim that
init fails for a probe list of 95 entries. -/
theorem C7_counterexample :
    ((("q", false) :: List.replicate 94 ("p", true)).length = 95) ∧
    (init (("q", false) :: List.replicate 94 ("p", true)) none).isSome = true := by
  set_option maxRecDepth 100000 in decide

/-- C7 amended: init succeeds for every probe list of at most 94 entries,
and in general succeeds exactly when the logical probe count — enabled
entries after vector grouping — is at most 94; a 95-entry list may succeed
when grouping or disabled entries keep the logical count at 94 or below. -/
theorem C7_amended (probes : List (String × Bool)) (rate? : Option Nat) :
    (probes.length ≤ 94 → (init probes rate?).isSome = true) ∧
    ((init probes rate?).isSome = true ↔ (init_probes probes).length ≤ 94) := by
  have hle := init_probes_length_le probes
  have key : (init probes rate?).isSome = true ↔ (init_probes probes).length ≤ 94 := by
    unfold init
    split
    · next hgt =>
      simp only [Option.isSome_none]
      constructor
      · intro hcon; exact absurd hcon (by decide)
      · intro hcon; omega
    · next hgt =>
      simp only [Option.isSome_some]
      constructor
      · intro _; omega
      · intro _; trivial
  exact ⟨fun h => key.mpr (by omega), key⟩

/-- Witness for C7's amended claim on a one-entry probe list. -/
theorem C7_amended_witness : (init [("a", true)] none).isSome = true :=
  (C7_amended [("a", true)] none).1 (by decide)

/-- C8: a sample processed after the very first one whose first unitsize
bytes are byte-identical to the retained prevsample buffer produces no
lines at all — no timestamp line, no value lines — while samplecount is
still incremented (vcd.c:272,276-277). -/
theorem C8_identical_sample_skipped (c : Ctx) (s : List Nat)
    (h : s.take c.unitsize = c.prevsample) :
    (process_sample false c s).2.1 = [] ∧
    (process_sample false c s).1.samplecount = c.samplecount + 1 := by
  have hb : (s.take c.unitsize == c.prevsample) = true := beq_iff_eq.mpr h
  constructor <;> simp [process_sample, hb]

/-- Witness for C8 on a concrete context and identical sample. -/
theorem C8_witness :
    (process_sample false
        { probeindices := [], header := false, prevsample := [0], period := 1000,
          samplerate := 1, unitsize := 1, samplecount := 5 } [0]).2.1 = [] ∧
    (process_sample false
        { probeindices := [], header := false, prevsample := [0], period := 1000,
          samplerate := 1, unitsize := 1, samplecount := 5 } [0]).1.samplecount =
      5 + 1 :=
  C8_identical_sample_skipped _ _ (by decide)

/-- C9: the timescale is selected with strict thresholds — 10^9 for
samplerate > 10^6, else 10^6 for samplerate > 10^3, else 10^3 — and in
particular a sample rate of exactly 1 000 000 selects the microsecond-tier
constant 10^6, not 10^9. -/
theorem C9_timescale_thresholds :
    (∀ r : Nat, 1000000 < r → period_of r = 1000000000) ∧
    (∀ r : Nat, 1000 < r → r ≤ 1000000 → period_of r = 1000000) ∧
    (∀ r : Nat, r ≤ 1000 → period_of r = 1000) ∧
    period_of 1000000 = 1000000 := by
  refine ⟨?_, ?_, ?_, ?_⟩
  · intro r h
    unfold period_of
    rw [if_pos h]
  · intro r h1 h2
    unfold period_of
    rw [if_neg (by omega), if_pos h1]
  · intro r h
    unfold period_of
    rw [if_neg (by omega), if_neg (by omega)]
  · decide

/-- Witness for C9 at the two boundary rates. -/
theorem C9_timescale_witness :
    period_of 1000001 = 1000000000 ∧ period_of 1000000 = 1000000 :=
  ⟨C9_timescale_thresholds.1 1000001 (by decide), C9_timescale_thresholds.2.2.2⟩

/-- C10: when no sample rate is reported, init still succeeds with
samplerate 0 and the ms-tier period constant 10^3, and the unguarded
timestamp division of vcd.c:279-281 is then undefined — it is well defined
exactly under the precondition samplerate > 0. -/
theorem C10_no_samplerate (probes : List (String × Bool)) (c : Ctx)
    (h : init probes none = some c) :
    c.samplerate = 0 ∧ c.period = 1000 ∧
    (∀ count, receive_timestamp count c.samplerate c.period = none) ∧
    (∀ count r p, 0 < r → (receive_timestamp count r p).isSome = true) := by
  have hsr : c.samplerate = 0 ∧ c.period = 1000 := by
    unfold init at h
    split at h
    · exact absurd h (by simp)
    · cases h
      exact ⟨rfl, rfl⟩
  refine ⟨hsr.1, hsr.2, ?_, ?_⟩
  · intro count
    rw [hsr.1]
    unfold receive_timestamp
    simp
  · intro count r p hr
    unfold receive_timestamp
    rw [if_neg (by omega)]
    rfl

/-- Witness for C10 on a concrete one-probe session without a sample rate. -/
theorem C10_witness :
    ((init [("a", true)] none).getD default).samplerate = 0 ∧
    ((init [("a", true)] none).getD default).period = 1000 ∧
    receive_timestamp 1 ((init [("a", true)] none).getD default).samplerate
      ((init [("a", true)] none).getD default).period = none ∧
    (receive_timestamp 1 5 1000).isSome = true := by
  have h := C10_no_samplerate [("a", true)]
    ((init [("a", true)] none).getD default) (by rfl)
  exact ⟨h.1, h.2.1, h.2.2.1 1, h.2.2.2 1 5 1000 (by decide)⟩

end Vcd
